import Mathlib

/-!
Shallow embedding of the `s3kv` block and blob layers
(`src/block.rs`, `src/blob.rs`), together with proofs of the
specification's claims about them.

Modelling conventions:
* Rust byte strings (`Vec<u8>`, `&[u8]`) are `List Nat` (each element a
  byte value).
* Rust `String` keys are `List Char`.
* `anyhow::Result<T>` collapses to `Option T` (errors carry no payload
  that the claims inspect).
* The external zstd codec (`zstd::bulk::compress` /
  `zstd::bulk::decompress_to_buffer`) is an external collaborator; it is
  modelled as an abstract pair of functions (`Zstd`), with losslessness
  (`decompress ∘ compress = some`) as an explicit hypothesis where a
  claim needs it.
* The S3 bucket plus object keys are modelled as a single function from
  keys to optional byte strings (`Store`).
-/

namespace S3kv

/-- Fuel-driven worker for `varintEncode`; the fuel only serves to make
the recursion structural (any fuel ≥ n gives the same answer). -/
def varintEncodeAux (fuel n : Nat) : List Nat :=
  match fuel with
  | 0 => [n]
  | fuel + 1 =>
    if n < 128 then [n] else (n % 128 + 128) :: varintEncodeAux fuel (n / 128)

/-- Unsigned LEB128 variable-length integer encoding: 7 data bits per
byte, most-significant bit set on all bytes but the last
(`integer_encoding` crate, spec §4.1 and glossary). -/
def varintEncode (n : Nat) : List Nat := varintEncodeAux n n

theorem varintEncodeAux_fuel :
    ∀ n, ∀ fuel fuel' : Nat, n ≤ fuel → n ≤ fuel' →
      varintEncodeAux fuel n = varintEncodeAux fuel' n := by
  intro n
  induction n using Nat.strong_induction_on with
  | _ n ih =>
    intro fuel fuel' hf hf'
    by_cases h : n < 128
    · cases fuel <;> cases fuel' <;> simp [varintEncodeAux, h]
    · cases fuel with
      | zero => omega
      | succ f =>
        cases fuel' with
        | zero => omega
        | succ f' =>
          simp only [varintEncodeAux, if_neg h]
          have hd : n / 128 < n := Nat.div_lt_self (by omega) (by omega)
          rw [ih (n / 128) hd f f' (by omega) (by omega)]

/-- The recurrence `varintEncode` satisfies (the shape of the source's
recursion). -/
theorem varintEncode_def (n : Nat) :
    varintEncode n =
      if n < 128 then [n] else (n % 128 + 128) :: varintEncode (n / 128) := by
  unfold varintEncode
  by_cases h : n < 128
  · cases n <;> simp [varintEncodeAux, h]
  · match n, h with
    | m + 1, h =>
      simp only [varintEncodeAux, if_neg h]
      have hd : (m + 1) / 128 < m + 1 := Nat.div_lt_self (by omega) (by omega)
      exact congrArg (fun l => ((m + 1) % 128 + 128) :: l)
        (varintEncodeAux_fuel ((m + 1) / 128) m ((m + 1) / 128)
          (by omega) (le_refl _))

/-- Model of `required_space(n)`: the number of bytes `varintEncode n` occupies
(the `integer_encoding` crate's `required_space`). -/
def required_space (n : Nat) : Nat := (varintEncode n).length

/-- LEB128 varint decoding: reads one varint from the front of the
buffer, returning the value and the remaining bytes; `none` models the
crate's error on a truncated varint (`read_varint`). -/
def varintDecode : List Nat → Option (Nat × List Nat)
  | [] => none
  | b :: rest =>
    if b < 128 then some (b, rest)
    else
      match varintDecode rest with
      | none => none
      | some (v, rest') => some (b - 128 + 128 * v, rest')

theorem varintEncode_ne_nil (n : Nat) : varintEncode n ≠ [] := by
  rw [varintEncode_def]
  by_cases h : n < 128 <;> simp [h]

theorem varintEncode_lt_256 (n : Nat) : ∀ x ∈ varintEncode n, x < 256 := by
  induction n using Nat.strong_induction_on with
  | _ n ih =>
    rw [varintEncode_def]
    by_cases h : n < 128
    · simp [h]; omega
    · simp only [if_neg h, List.mem_cons]
      rintro x (rfl | hx)
      · omega
      · exact ih (n / 128) (Nat.div_lt_self (by omega) (by omega)) x hx

/-- Decoding inverts encoding and leaves trailing bytes untouched. -/
theorem varintDecode_encode_append (n : Nat) (rest : List Nat) :
    varintDecode (varintEncode n ++ rest) = some (n, rest) := by
  induction n using Nat.strong_induction_on with
  | _ n ih =>
    rw [varintEncode_def]
    by_cases h : n < 128
    · simp [h, varintDecode]
    · simp only [if_neg h, List.cons_append, varintDecode]
      rw [if_neg (by omega), ih (n / 128) (Nat.div_lt_self (by omega) (by omega))]
      simp only [Option.some.injEq, Prod.mk.injEq, and_true]
      omega

theorem varintDecode_encode (n : Nat) :
    varintDecode (varintEncode n) = some (n, []) := by
  simpa using varintDecode_encode_append n []

theorem varintEncode_injective : Function.Injective varintEncode := by
  intro a b h
  have ha := varintDecode_encode a
  rw [h, varintDecode_encode b] at ha
  simpa using ha.symm

/-- The `Location` type: a `(block_id, offset)` coordinate (`block.rs`).
Rust `usize` fields are modelled as `Nat`. -/
structure Location where
  block_id : Nat
  offset : Nat
deriving DecidableEq, Repr

/-- Model of `Location::encode`: `varint(block_id) || varint(offset)`
(`block.rs` lines 17–24). -/
def Location.encode (l : Location) : List Nat :=
  varintEncode l.block_id ++ varintEncode l.offset

/-- Model of `Location::decode`: reads two varints from a cursor over the buffer;
whatever follows the second varint is never examined
(`block.rs` lines 25–32). `none` models the `anyhow` error path. -/
def Location.decode (buf : List Nat) : Option Location :=
  match varintDecode buf with
  | none => none
  | some (b, rest) =>
    match varintDecode rest with
    | none => none
    | some (o, _) => some ⟨b, o⟩

theorem Location.decode_encode_append (l : Location) (rest : List Nat) :
    Location.decode (l.encode ++ rest) = some l := by
  unfold Location.encode Location.decode
  rw [List.append_assoc, varintDecode_encode_append]
  simp only [varintDecode_encode_append]

theorem Location.decode_encode (l : Location) :
    Location.decode l.encode = some l := by
  simpa using Location.decode_encode_append l []

/-- One lowercase hex digit (`hex` crate, `ToHex`). -/
def hexDigit (n : Nat) : Char := Char.ofNat (if n < 10 then 48 + n else 87 + n)

/-- Lowercase hex of one byte: high nibble then low nibble. -/
def byteHex (b : Nat) : List Char := [hexDigit (b / 16), hexDigit (b % 16)]

/-- Model of `encode_hex`: lowercase hex string of a byte string (`hex` crate). -/
def encodeHex (bs : List Nat) : List Char := bs.flatMap byteHex

/-- A blobstore key; Rust `String` modelled as a list of characters. -/
abbrev Key := List Char

/-- The block object name `hex(varint(block_id))`
(`block.rs` line 93 / line 139). -/
def blockName (block_id : Nat) : List Char := encodeHex (varintEncode block_id)

/-- The full object key `format!("{}/{}", prefix, name)` used by both
`S3BlockWriter::flush` and `S3BlockReader::fetch_block`. -/
def blockKey (pre : Key) (block_id : Nat) : Key := pre ++ '/' :: blockName block_id

theorem hexDigit_injOn : ∀ a < 16, ∀ b < 16, hexDigit a = hexDigit b → a = b := by
  decide

theorem encodeHex_injOn (as : List Nat) (bs : List Nat)
    (ha : ∀ x ∈ as, x < 256) (hb : ∀ x ∈ bs, x < 256)
    (h : encodeHex as = encodeHex bs) : as = bs := by
  induction as generalizing bs with
  | nil => cases bs with
    | nil => rfl
    | cons b bs => simp [encodeHex, byteHex] at h
  | cons a as ih =>
    cases bs with
    | nil => simp [encodeHex, byteHex] at h
    | cons b bs =>
      simp only [encodeHex, List.flatMap_cons, byteHex, List.cons_append,
        List.nil_append, List.cons.injEq] at h
      obtain ⟨h1, h2, h3⟩ := h
      have ha' : a < 256 := ha a (by simp)
      have hb' : b < 256 := hb b (by simp)
      have e1 : a / 16 = b / 16 :=
        hexDigit_injOn _ (by omega) _ (by omega) h1
      have e2 : a % 16 = b % 16 :=
        hexDigit_injOn _ (by omega) _ (by omega) h2
      have : a = b := by omega
      subst this
      rw [ih bs (fun x hx => ha x (by simp [hx]))
        (fun x hx => hb x (by simp [hx])) h3]

theorem blockKey_injOn (pre : Key) (a b : Nat)
    (h : blockKey pre a = blockKey pre b) : a = b := by
  unfold blockKey at h
  have h2 : blockName a = blockName b := by
    have := List.append_cancel_left h
    simpa using this
  unfold blockName at h2
  exact varintEncode_injective
    (encodeHex_injOn _ _ (varintEncode_lt_256 a) (varintEncode_lt_256 b) h2)

/-- The bucket's object namespace: a map from keys to stored bytes.
`put_object` overwrites, `get_object` reads. -/
def Store := Key → Option (List Nat)

/-- The empty bucket. -/
def Store.empty : Store := fun _ => none

/-- Model of `put_object`: store `v` at key `k`, overwriting. -/
def Store.put (s : Store) (k : Key) (v : List Nat) : Store :=
  fun k' => if k' = k then some v else s k'

theorem Store.put_same (s : Store) (k : Key) (v : List Nat) :
    s.put k v k = some v := by simp [Store.put]

theorem Store.put_other (s : Store) (k k' : Key) (v : List Nat)
    (h : k' ≠ k) : s.put k v k' = s k' := by simp [Store.put, h]

/-- Model of the external zstd codec (`zstd::bulk`): an abstract
compression function and its decoder. Losslessness is stated separately
(`Zstd.Lossless`) and assumed only where a claim needs it. -/
structure Zstd where
  compress : List Nat → List Nat
  decompress : List Nat → Option (List Nat)

/-- The zstd contract: decompression inverts compression. -/
def Zstd.Lossless (z : Zstd) : Prop :=
  ∀ b, z.decompress (z.compress b) = some b

/-- A trivial lossless codec instance, usable for concrete runs (the
claims under test never depend on the particular codec). -/
def Zstd.triv : Zstd := ⟨fun b => b, fun b => some b⟩

theorem Zstd.triv_lossless : Zstd.triv.Lossless := fun _ => rfl

/-- State of `S3BlockWriter` (`block.rs` lines 46–53): the in-progress
uncompressed block buffer, the nominal block size cap, the key prefix,
and the `Location` the next `append` will return. The `bucket` field is
absorbed into the `Store` the operations thread through. -/
structure S3BlockWriter where
  buf : List Nat
  block_size : Nat
  pre : Key
  cur : Location

/-- A fresh writer (`S3BlockWriter::new`): empty buffer,
`cur = Location::default() = (0, 0)`. -/
def S3BlockWriter.new (block_size : Nat) (pre : Key) : S3BlockWriter :=
  ⟨[], block_size, pre, ⟨0, 0⟩⟩

/-- Model of `S3BlockWriter::flush` (`block.rs` lines 87–107), with the outcome
of the underlying `put_object` made explicit (`putOk`). Mirrors the
source's statement order: the empty-buffer early return, then
compression, then `self.buf.clear()`, then the `put` (whose error, when
`putOk = false`, is surfaced with `buf` already cleared and `cur` not
yet advanced), and only after a successful `put` the advance of `cur`.
The returned `Bool` is `true` on `Ok(())`. -/
def S3BlockWriter.flushWith (z : Zstd) (putOk : Bool) (w : S3BlockWriter)
    (s : Store) : Bool × S3BlockWriter × Store :=
  if w.buf = [] then (true, w, s)
  else
    let compressed := z.compress w.buf
    let w1 : S3BlockWriter := { w with buf := [] }
    if putOk then
      (true,
       { w1 with cur := ⟨w.cur.block_id + 1, 0⟩ },
       s.put (blockKey w.pre w.cur.block_id) compressed)
    else
      (false, w1, s)

/-- The `flush` operation on the happy path (the underlying `put` succeeds). -/
def S3BlockWriter.flush (z : Zstd) (w : S3BlockWriter) (s : Store) :
    S3BlockWriter × Store :=
  (S3BlockWriter.flushWith z true w s).2

/-- Model of `S3BlockWriter::append` (`block.rs` lines 75–85) on the happy path:
flush first if the framed record would overflow the cap, then frame the
record into `buf` and advance `cur.offset`; returns the pre-write
location. -/
def S3BlockWriter.append (z : Zstd) (w : S3BlockWriter) (s : Store)
    (item : List Nat) : Location × S3BlockWriter × Store :=
  let size := required_space item.length
  let ws :=
    if w.cur.offset + size + item.length > w.block_size then
      S3BlockWriter.flush z w s
    else (w, s)
  let w1 := ws.1
  (w1.cur,
   { w1 with
       buf := w1.buf ++ varintEncode item.length ++ item,
       cur := ⟨w1.cur.block_id, w1.cur.offset + size + item.length⟩ },
   ws.2)

/-- Run a sequence of `append`s, collecting the returned locations. -/
def appendAll (z : Zstd) : List (List Nat) → S3BlockWriter → Store →
    List Location × S3BlockWriter × Store
  | [], w, s => ([], w, s)
  | r :: rs, w, s =>
    let x := S3BlockWriter.append z w s r
    let y := appendAll z rs x.2.1 x.2.2
    (x.1 :: y.1, y.2)

/-- Model of `S3BlockReader::fetch_block` (`block.rs` lines 136–159) with the
block's LRU memo elided: the memo only caches the result of fetching an
immutable, already-published object, so the cold path below is the
function's observable behaviour. The source decompresses into
`vec![0; block_size]` and errors when the uncompressed block does not
fit. -/
def S3BlockReader.fetchBlock (z : Zstd) (block_size : Nat) (pre : Key)
    (s : Store) (block_id : Nat) : Option (List Nat) :=
  match s (blockKey pre block_id) with
  | none => none
  | some compressed =>
    match z.decompress compressed with
    | none => none
    | some d => if d.length ≤ block_size then some d else none

/-- The cursor phase of `S3BlockReader::fetch`: position at `offset`,
read a length varint, then read exactly that many bytes. -/
def readRecord (block : List Nat) (off : Nat) : Option (List Nat) :=
  match varintDecode (block.drop off) with
  | none => none
  | some (n, rest) => if n ≤ rest.length then some (rest.take n) else none

/-- Model of `S3BlockReader::fetch` (`block.rs` lines 167–176). -/
def S3BlockReader.fetch (z : Zstd) (block_size : Nat) (pre : Key)
    (s : Store) (loc : Location) : Option (List Nat) :=
  match S3BlockReader.fetchBlock z block_size pre s loc.block_id with
  | none => none
  | some block => readRecord block loc.offset

/-- The `Blobstore` trait (`blob.rs` lines 14–50) over an explicit
state type `σ`: `get` and `put` are state transformers returning an
`Except`-modelled `anyhow::Result`. `get` returns `none` for "no such
key". -/
structure Blobstore (σ : Type) where
  get : σ → Key → σ × Except Unit (Option (List Nat))
  put : σ → Key → List Nat → σ × Except Unit Unit

/-- The `Prefixed` decorator (`blob.rs` lines 123–140): rewrites every
key `k` to `format!("{}/{}", prefix, k)` before delegating. -/
def Prefixed (B : Blobstore σ) (pre : Key) : Blobstore σ where
  get s k := B.get s (pre ++ '/' :: k)
  put s k v := B.put s (pre ++ '/' :: k) v

/-- Instrument a blobstore to log every key its `get`/`put` receives
(the observation device of the spec's "S observes exactly the key"
properties; the test module's `Spystore` is the concrete analogue). -/
def traced (B : Blobstore σ) : Blobstore (σ × List Key) where
  get s k :=
    let r := B.get s.1 k
    ((r.1, s.2 ++ [k]), r.2)
  put s k v :=
    let r := B.put s.1 k v
    ((r.1, s.2 ++ [k]), r.2)

/-- The test module's `Spystore` (`blob.rs` test `mod`): records every
fetched key and always answers `Ok(None)`; `put` is a no-op. -/
def Spystore : Blobstore (List Key) where
  get s k := (s ++ [k], .ok none)
  put s _ _ := (s, .ok ())

/-- An `lru::LruCache` with entries kept in recency order, most
recently used first. -/
structure LruCache (β : Type) where
  cap : Nat
  entries : List (Key × β)

/-- Model of `LruCache::get_or_insert(k, default)`: on a present key, promote it
to most-recent and hand back its value; on an absent key, evict the
least-recently-used entry if at capacity, then insert `(k, default)` as
most-recent. Returns the entry's value and the updated cache. -/
def LruCache.getOrInsert (c : LruCache β) (k : Key) (dflt : β) :
    β × LruCache β :=
  match c.entries.lookup k with
  | some v => (v, ⟨c.cap, (k, v) :: c.entries.filter (fun e => e.1 ≠ k)⟩)
  | none =>
    let kept := if c.entries.length = c.cap then c.entries.dropLast else c.entries
    (dflt, ⟨c.cap, (k, dflt) :: kept⟩)

/-- Model of `OnceCell::get_or_init` on the cell stored under `k`: fill the
(empty) cell at `k` with `v`. -/
def LruCache.fill (c : LruCache (Option β)) (k : Key) (v : β) :
    LruCache (Option β) :=
  ⟨c.cap, c.entries.map (fun e => if e.1 = k then (k, some v) else e)⟩

/-- The `Caching` decorator's state (`blob.rs` lines 149–153): the
inner store's state and an LRU of `OnceCell<Option<Vec<u8>>>` cells.
An unfilled cell is `none`; a filled cell holding the inner store's
result `v : Option (List Nat)` is `some v`. -/
structure Caching (σ : Type) where
  inner : σ
  cache : LruCache (Option (Option (List Nat)))

/-- Model of `Caching::get` (`blob.rs` lines 157–171): get-or-insert the cell
for `k` (touching LRU recency and possibly evicting); on a filled cell
return the cached result without consulting the inner store; otherwise
delegate to the inner store — propagating its error with the empty cell
left in place — and fill the cell with the outcome. -/
def Caching.get (B : Blobstore σ) (c : Caching σ) (k : Key) :
    Caching σ × Except Unit (Option (List Nat)) :=
  let r := c.cache.getOrInsert k none
  match r.1 with
  | some v => ({ c with cache := r.2 }, .ok v)
  | none =>
    let g := B.get c.inner k
    match g.2 with
    | .error e => (⟨g.1, r.2⟩, .error e)
    | .ok v => (⟨g.1, r.2.fill k v⟩, .ok v)

/-- Model of `Caching::put` (`blob.rs` lines 172–174): delegate to the inner
store; the cache is not touched. -/
def Caching.put (B : Blobstore σ) (c : Caching σ) (k : Key)
    (v : List Nat) : Caching σ × Except Unit Unit :=
  let r := B.put c.inner k v
  ({ c with inner := r.1 }, r.2)

/-- Model of `with_caching(capacity)` on a fresh cache (`blob.rs` lines 41–49). -/
def Caching.new (innerState : σ) (capacity : Nat) : Caching σ :=
  ⟨innerState, ⟨capacity, []⟩⟩

/-! ## Writer/reader round-trip invariant -/

/-- The number of bytes `append` adds to the block buffer for a record:
its length varint plus its payload. -/
def framedSize (r : List Nat) : Nat := required_space r.length + r.length

/-- The framed record `r` starts at byte `off` of block payload `B`. -/
def FrameAt (B : List Nat) (off : Nat) (r : List Nat) : Prop :=
  ∃ tail, B.drop off = varintEncode r.length ++ r ++ tail

/-- Record `r` is readable at location `l` from the published store:
the block object exists, its uncompressed payload fits the reader's
decompression buffer, and the frame sits at `l.offset`. -/
def Published (z : Zstd) (bs : Nat) (pre : Key) (s : Store)
    (r : List Nat) (l : Location) : Prop :=
  ∃ B, s (blockKey pre l.block_id) = some (z.compress B) ∧
    B.length ≤ bs ∧ FrameAt B l.offset r

/-- Writer well-formedness: fixed configuration, `cur.offset` tracks
the buffer length, and the buffer respects the cap. -/
def WriterInv (bs : Nat) (pre : Key) (w : S3BlockWriter) : Prop :=
  w.block_size = bs ∧ w.pre = pre ∧ w.cur.offset = w.buf.length ∧
    w.buf.length ≤ bs

/-- A handed-out location is good for its record: either its block is
already published, or it still sits in the writer's current buffer. -/
def RecordOk (z : Zstd) (bs : Nat) (pre : Key) (s : Store)
    (w : S3BlockWriter) (r : List Nat) (l : Location) : Prop :=
  (l.block_id < w.cur.block_id ∧ Published z bs pre s r l)
  ∨ (l.block_id = w.cur.block_id ∧ FrameAt w.buf l.offset r)

theorem FrameAt.off_le {B : List Nat} {off : Nat} {r : List Nat}
    (h : FrameAt B off r) : off ≤ B.length := by
  obtain ⟨tail, ht⟩ := h
  by_contra hlt
  have : B.drop off = [] := List.drop_eq_nil_of_le (by omega)
  rw [this] at ht
  exact varintEncode_ne_nil r.length (List.append_eq_nil.mp
    (List.append_eq_nil.mp ht.symm).1).1

theorem FrameAt.extend {B ext : List Nat} {off : Nat} {r : List Nat}
    (h : FrameAt B off r) : FrameAt (B ++ ext) off r := by
  have hle := h.off_le
  obtain ⟨tail, ht⟩ := h
  refine ⟨tail ++ ext, ?_⟩
  rw [List.drop_append_eq_append_drop,
    Nat.sub_eq_zero_of_le hle, List.drop_zero, ht]
  simp [List.append_assoc]

theorem FrameAt.self (B r : List Nat) :
    FrameAt (B ++ varintEncode r.length ++ r) B.length r := by
  refine ⟨[], ?_⟩
  rw [List.append_assoc, List.drop_append_eq_append_drop]
  simp

/-- The `put` of block `j` does not disturb the object of block `i ≠ j`
under the same prefix. -/
theorem Store.put_blockKey_ne (s : Store) (pre : Key) {i j : Nat}
    (h : i ≠ j) (v : List Nat) :
    s.put (blockKey pre j) v (blockKey pre i) = s (blockKey pre i) :=
  Store.put_other s _ _ v (fun he => h (blockKey_injOn pre i j he))

theorem flush_of_empty {z : Zstd} {w : S3BlockWriter} {s : Store}
    (hb : w.buf = []) : S3BlockWriter.flush z w s = (w, s) := by
  unfold S3BlockWriter.flush S3BlockWriter.flushWith
  simp [hb]

theorem flush_of_nonempty {z : Zstd} {w : S3BlockWriter} {s : Store}
    (hb : w.buf ≠ []) :
    S3BlockWriter.flush z w s =
      ({ buf := [], block_size := w.block_size, pre := w.pre,
         cur := ⟨w.cur.block_id + 1, 0⟩ },
       s.put (blockKey w.pre w.cur.block_id) (z.compress w.buf)) := by
  unfold S3BlockWriter.flush S3BlockWriter.flushWith
  simp [hb]

theorem flush_writerInv {z : Zstd} {bs : Nat} {pre : Key}
    {w : S3BlockWriter} {s : Store} (hw : WriterInv bs pre w) :
    WriterInv bs pre (S3BlockWriter.flush z w s).1 := by
  obtain ⟨h1, h2, h3, h4⟩ := hw
  by_cases hb : w.buf = []
  · rw [flush_of_empty hb]; exact ⟨h1, h2, h3, h4⟩
  · rw [flush_of_nonempty hb]
    exact ⟨h1, h2, rfl, Nat.zero_le bs⟩

theorem flush_buf_empty {z : Zstd} {w : S3BlockWriter} {s : Store} :
    (S3BlockWriter.flush z w s).1.buf = [] := by
  by_cases hb : w.buf = []
  · rw [flush_of_empty hb, hb]
  · rw [flush_of_nonempty hb]

theorem flush_preserves {z : Zstd} {bs : Nat} {pre : Key}
    {w : S3BlockWriter} {s : Store} (hw : WriterInv bs pre w)
    {r : List Nat} {l : Location} (h : RecordOk z bs pre s w r l) :
    RecordOk z bs pre (S3BlockWriter.flush z w s).2
      (S3BlockWriter.flush z w s).1 r l := by
  obtain ⟨h1, h2, h3, h4⟩ := hw
  by_cases hb : w.buf = []
  · rw [flush_of_empty hb]; exact h
  · rw [flush_of_nonempty hb]
    unfold RecordOk Published at h ⊢
    rcases h with ⟨hlt, B, hs, hB, hF⟩ | ⟨heq, hF⟩
    · refine Or.inl ⟨?_, B, ?_, hB, hF⟩
      · show l.block_id < w.cur.block_id + 1
        omega
      · show s.put (blockKey w.pre w.cur.block_id) (z.compress w.buf)
            (blockKey pre l.block_id) = some (z.compress B)
        rw [h2, Store.put_blockKey_ne s pre (by omega)]
        exact hs
    · refine Or.inl ⟨?_, w.buf, ?_, by omega, hF⟩
      · show l.block_id < w.cur.block_id + 1
        omega
      · show s.put (blockKey w.pre w.cur.block_id) (z.compress w.buf)
            (blockKey pre l.block_id) = some (z.compress w.buf)
        rw [h2, heq, Store.put_same]

theorem frameAt_nil_false {off : Nat} {r : List Nat}
    (hF : FrameAt [] off r) : False := by
  obtain ⟨tail, ht⟩ := hF
  simp only [List.drop_nil] at ht
  exact varintEncode_ne_nil r.length
    (List.append_eq_nil.mp (List.append_eq_nil.mp ht.symm).1).1

theorem flush_published {z : Zstd} {bs : Nat} {pre : Key}
    {w : S3BlockWriter} {s : Store} (hw : WriterInv bs pre w)
    {r : List Nat} {l : Location} (h : RecordOk z bs pre s w r l) :
    Published z bs pre (S3BlockWriter.flush z w s).2 r l := by
  have hp := flush_preserves (z := z) hw h
  rcases hp with ⟨_, hp⟩ | ⟨_, hF⟩
  · exact hp
  · rw [flush_buf_empty] at hF
    exact absurd hF frameAt_nil_false

/-- The `append` operation unfolded into its flush phase and its buffer-write phase. -/
theorem append_eq (z : Zstd) (w : S3BlockWriter) (s : Store)
    (item : List Nat) :
    S3BlockWriter.append z w s item =
      (let ws :=
        if w.cur.offset + required_space item.length + item.length >
            w.block_size then
          S3BlockWriter.flush z w s
        else (w, s)
       (ws.1.cur,
        { ws.1 with
            buf := ws.1.buf ++ varintEncode item.length ++ item,
            cur := ⟨ws.1.cur.block_id,
              ws.1.cur.offset + required_space item.length + item.length⟩ },
        ws.2)) := rfl

/-- The append step: the writer invariant is maintained, every
previously handed-out location stays good, and the returned location is
good for the appended record. -/
theorem append_step {z : Zstd} {bs : Nat} {pre : Key}
    {w : S3BlockWriter} {s : Store} (hw : WriterInv bs pre w)
    {item : List Nat} (hitem : framedSize item ≤ bs) :
    WriterInv bs pre (S3BlockWriter.append z w s item).2.1 ∧
    (∀ r l, RecordOk z bs pre s w r l →
      RecordOk z bs pre (S3BlockWriter.append z w s item).2.2
        (S3BlockWriter.append z w s item).2.1 r l) ∧
    RecordOk z bs pre (S3BlockWriter.append z w s item).2.2
      (S3BlockWriter.append z w s item).2.1 item
      (S3BlockWriter.append z w s item).1 := by
  rw [append_eq]
  by_cases hc : w.cur.offset + required_space item.length + item.length >
      w.block_size
  · simp only [if_pos hc]
    have hw1 := flush_writerInv (z := z) (s := s) hw
    obtain ⟨g1, g2, g3, g4⟩ := hw1
    have hbuf : (S3BlockWriter.flush z w s).1.buf = [] := flush_buf_empty
    refine ⟨⟨g1, g2, ?_, ?_⟩, ?_, ?_⟩
    · show _ + required_space item.length + item.length = _
      simp only [g3, List.length_append, required_space]
    · show (_ ++ varintEncode item.length ++ item).length ≤ bs
      rw [hbuf]
      simpa [framedSize, required_space] using hitem
    · intro r l h
      have h2 := flush_preserves (z := z) hw h
      unfold RecordOk at h2 ⊢
      rcases h2 with ⟨hlt, hp⟩ | ⟨heq, hF⟩
      · exact Or.inl ⟨hlt, hp⟩
      · refine Or.inr ⟨heq, ?_⟩
        show FrameAt ((S3BlockWriter.flush z w s).1.buf ++
          varintEncode item.length ++ item) l.offset r
        rw [List.append_assoc]
        exact hF.extend
    · unfold RecordOk
      refine Or.inr ⟨rfl, ?_⟩
      show FrameAt ((S3BlockWriter.flush z w s).1.buf ++
        varintEncode item.length ++ item) (S3BlockWriter.flush z w s).1.cur.offset item
      rw [g3]
      exact FrameAt.self _ item
  · simp only [if_neg hc]
    obtain ⟨h1, h2, h3, h4⟩ := hw
    refine ⟨⟨h1, h2, ?_, ?_⟩, ?_, ?_⟩
    · show _ + required_space item.length + item.length = _
      simp only [h3, List.length_append, required_space]
    · show (w.buf ++ varintEncode item.length ++ item).length ≤ bs
      simp only [List.length_append]
      have : (varintEncode item.length).length = required_space item.length := rfl
      omega
    · intro r l h
      unfold RecordOk at h ⊢
      rcases h with ⟨hlt, hp⟩ | ⟨heq, hF⟩
      · exact Or.inl ⟨hlt, hp⟩
      · refine Or.inr ⟨heq, ?_⟩
        show FrameAt (w.buf ++ varintEncode item.length ++ item) l.offset r
        rw [List.append_assoc]
        exact hF.extend
    · unfold RecordOk
      refine Or.inr ⟨rfl, ?_⟩
      show FrameAt (w.buf ++ varintEncode item.length ++ item) w.cur.offset item
      rw [h3]
      exact FrameAt.self _ item

/-- Running `appendAll`: the invariant is maintained, old locations
stay good, and the locations returned pair up with the records
appended. -/
theorem appendAll_ok {z : Zstd} {bs : Nat} {pre : Key} :
    ∀ (rs : List (List Nat)) (w : S3BlockWriter) (s : Store),
    WriterInv bs pre w → (∀ r ∈ rs, framedSize r ≤ bs) →
    (appendAll z rs w s).1.length = rs.length ∧
    WriterInv bs pre (appendAll z rs w s).2.1 ∧
    (∀ r l, RecordOk z bs pre s w r l →
      RecordOk z bs pre (appendAll z rs w s).2.2
        (appendAll z rs w s).2.1 r l) ∧
    (∀ p ∈ rs.zip (appendAll z rs w s).1,
      RecordOk z bs pre (appendAll z rs w s).2.2
        (appendAll z rs w s).2.1 p.1 p.2) := by
  intro rs
  induction rs with
  | nil => intro w s hw _; exact ⟨rfl, hw, fun r l h => h, by simp⟩
  | cons r rs ih =>
    intro w s hw hsz
    have hr : framedSize r ≤ bs := hsz r (by simp)
    obtain ⟨hwi, hpres, hnew⟩ := append_step (z := z) (s := s) hw hr
    obtain ⟨hlen, hwi', hpres', hall⟩ :=
      ih (S3BlockWriter.append z w s r).2.1 (S3BlockWriter.append z w s r).2.2
        hwi (fun x hx => hsz x (by simp [hx]))
    refine ⟨by simpa [appendAll] using hlen, by simpa [appendAll] using hwi',
      ?_, ?_⟩
    · intro r0 l0 h0
      have := hpres' r0 l0 (hpres r0 l0 h0)
      simpa [appendAll] using this
    · intro p hp
      simp only [appendAll, List.zip_cons_cons, List.mem_cons] at hp
      rcases hp with rfl | hp
      · simpa [appendAll] using hpres' r (S3BlockWriter.append z w s r).1 hnew
      · simpa [appendAll] using hall p hp

/-- A published record is returned verbatim by `fetch`, provided the
codec is lossless. -/
theorem fetch_of_published {z : Zstd} (hz : z.Lossless) {bs : Nat}
    {pre : Key} {s : Store} {r : List Nat} {l : Location}
    (h : Published z bs pre s r l) :
    S3BlockReader.fetch z bs pre s l = some r := by
  obtain ⟨B, hs, hB, tail, ht⟩ := h
  have hfb : S3BlockReader.fetchBlock z bs pre s l.block_id = some B := by
    unfold S3BlockReader.fetchBlock
    simp only [hs, hz B, if_pos hB]
  unfold S3BlockReader.fetch readRecord
  simp only [hfb, ht, List.append_assoc, varintDecode_encode_append]
  simp [List.take_left]

/-- A cache hit: when the cell stored under `k` is filled, `get`
returns its contents, promotes the entry, and leaves the inner store
untouched. -/
theorem Caching.get_hit {σ : Type} (B : Blobstore σ) (c : Caching σ)
    (k : Key) (v : Option (List Nat))
    (h : c.cache.entries.lookup k = some (some v)) :
    Caching.get B c k =
      ({ c with cache :=
          ⟨c.cache.cap, (k, some v) :: c.cache.entries.filter (fun e => e.1 ≠ k)⟩ },
       .ok v) := by
  unfold Caching.get LruCache.getOrInsert
  rw [h]

/-! ## Claims -/

/-- Claim C1, counterexample: the round trip fails as universally stated.
With the lossless identity codec, `block_size = 1` and the single
one-byte record `[48]`, `append` returns location `(0, 0)` and the final
`flush` succeeds, yet `fetch (0, 0)` errors: the solo block's
uncompressed payload (2 bytes) exceeds the reader's `block_size`-sized
decompression buffer. -/
theorem blockWriter_roundTrip_counterexample :
    Zstd.triv.Lossless ∧
    (appendAll Zstd.triv [[48]] (S3BlockWriter.new 1 ['p']) Store.empty).1
      = [⟨0, 0⟩] ∧
    S3BlockReader.fetch Zstd.triv 1 ['p']
      (S3BlockWriter.flush Zstd.triv
        (appendAll Zstd.triv [[48]] (S3BlockWriter.new 1 ['p']) Store.empty).2.1
        (appendAll Zstd.triv [[48]] (S3BlockWriter.new 1 ['p']) Store.empty).2.2).2
      ⟨0, 0⟩ = none :=
  ⟨Zstd.triv_lossless, by decide, by decide⟩

/-- Claim C1 (amended): end-to-end round trip for records whose framed
size fits the block cap. For every sequence of records appended through
a single writer (any `block_size ≥ 1`, any lossless codec, any initial
store), with every record's framed size at most `block_size`, each
`append`-returned location fetches back its record after the final
`flush`. -/
theorem blockWriter_roundTrip (z : Zstd) (hz : z.Lossless) (bs : Nat)
    (_hbs : 1 ≤ bs) (pre : Key) (s0 : Store) (rs : List (List Nat))
    (hrs : ∀ r ∈ rs, framedSize r ≤ bs) :
    (appendAll z rs (S3BlockWriter.new bs pre) s0).1.length = rs.length ∧
    ∀ p ∈ rs.zip (appendAll z rs (S3BlockWriter.new bs pre) s0).1,
      S3BlockReader.fetch z bs pre
        (S3BlockWriter.flush z
          (appendAll z rs (S3BlockWriter.new bs pre) s0).2.1
          (appendAll z rs (S3BlockWriter.new bs pre) s0).2.2).2
        p.2 = some p.1 := by
  have hw : WriterInv bs pre (S3BlockWriter.new bs pre) :=
    ⟨rfl, rfl, rfl, Nat.zero_le _⟩
  obtain ⟨hlen, hwi, _, hall⟩ :=
    appendAll_ok (z := z) rs (S3BlockWriter.new bs pre) s0 hw hrs
  exact ⟨hlen, fun p hp =>
    fetch_of_published hz (flush_published hwi (hall p hp))⟩

/-- Claim C1 witness: the round-trip theorem applied to two concrete
records with `block_size = 12`. -/
theorem blockWriter_roundTrip_witness :
    (appendAll Zstd.triv [[104, 105], [106]]
      (S3BlockWriter.new 12 ['p']) Store.empty).1.length = 2 ∧
    ∀ p ∈ [[104, 105], [106]].zip
        (appendAll Zstd.triv [[104, 105], [106]]
          (S3BlockWriter.new 12 ['p']) Store.empty).1,
      S3BlockReader.fetch Zstd.triv 12 ['p']
        (S3BlockWriter.flush Zstd.triv
          (appendAll Zstd.triv [[104, 105], [106]]
            (S3BlockWriter.new 12 ['p']) Store.empty).2.1
          (appendAll Zstd.triv [[104, 105], [106]]
            (S3BlockWriter.new 12 ['p']) Store.empty).2.2).2
        p.2 = some p.1 :=
  blockWriter_roundTrip Zstd.triv Zstd.triv_lossless 12 (by decide)
    ['p'] Store.empty [[104, 105], [106]] (by decide)

/-- Claim C4, counterexample: `Location::decode` does not reject
trailing input. The buffer `[0, 0, 0]` is two well-formed varints (0
and 0) followed by one trailing byte, and decoding succeeds with
`(0, 0)` instead of returning an error. -/
theorem location_decode_trailing_counterexample :
    Location.decode [0, 0, 0] = some ⟨0, 0⟩ := by decide

/-- Claim C4 (amended): for every byte string made of two well-formed
varints followed by at least one trailing byte, `decode` succeeds and
returns the location given by the two varints — the trailing bytes are
ignored, not rejected. -/
theorem location_decode_ignores_trailing (a b : Nat) (rest : List Nat)
    (_h : rest ≠ []) :
    Location.decode (varintEncode a ++ varintEncode b ++ rest)
      = some ⟨a, b⟩ := by
  unfold Location.decode
  rw [List.append_assoc, varintDecode_encode_append]
  simp only [varintDecode_encode_append]

/-- Claim C4 witness: the amended statement at `a = 1`, `b = 2`,
trailing byte `9`. -/
theorem location_decode_ignores_trailing_witness :
    Location.decode (varintEncode 1 ++ varintEncode 2 ++ [9])
      = some ⟨1, 2⟩ :=
  location_decode_ignores_trailing 1 2 [9] (by decide)

/-- Claim C5: the `Location` codec round-trips — for every location
with both fields representable in 64 bits,
`decode (encode l) = Ok l`. -/
theorem location_roundTrip (l : Location)
    (_h1 : l.block_id < 2 ^ 64) (_h2 : l.offset < 2 ^ 64) :
    Location.decode l.encode = some l :=
  Location.decode_encode l

/-- Claim C5 witness: the round trip at `(300, 77)`. -/
theorem location_roundTrip_witness :
    Location.decode (Location.encode ⟨300, 77⟩) = some ⟨300, 77⟩ :=
  location_roundTrip ⟨300, 77⟩ (by norm_num) (by norm_num)

/-- Claim C6: packing arithmetic with rollover. With `block_size = 12`,
appending `b"hello"`, `b"world"`, `b"foo"`, `b"barbaz"` returns exactly
the locations `(0,0), (0,6), (1,0), (1,4)` for every codec; after the
first two appends nothing is published under block 0 and the writer is
still on block 0, and it is the third append whose rollover flush
publishes block 0 (the writer then sits on block 1, and the published
object is the compressed 12-byte payload of block 0). -/
theorem packing_rollover_scenario (z : Zstd) :
    (appendAll z
      [[104, 101, 108, 108, 111], [119, 111, 114, 108, 100],
       [102, 111, 111], [98, 97, 114, 98, 97, 122]]
      (S3BlockWriter.new 12 ['p']) Store.empty).1
      = [⟨0, 0⟩, ⟨0, 6⟩, ⟨1, 0⟩, ⟨1, 4⟩] ∧
    (appendAll z
      [[104, 101, 108, 108, 111], [119, 111, 114, 108, 100]]
      (S3BlockWriter.new 12 ['p']) Store.empty).2.2
      (blockKey ['p'] 0) = none ∧
    (appendAll z
      [[104, 101, 108, 108, 111], [119, 111, 114, 108, 100]]
      (S3BlockWriter.new 12 ['p']) Store.empty).2.1.cur.block_id = 0 ∧
    (appendAll z
      [[104, 101, 108, 108, 111], [119, 111, 114, 108, 100],
       [102, 111, 111]]
      (S3BlockWriter.new 12 ['p']) Store.empty).2.1.cur.block_id = 1 ∧
    (appendAll Zstd.triv
      [[104, 101, 108, 108, 111], [119, 111, 114, 108, 100],
       [102, 111, 111]]
      (S3BlockWriter.new 12 ['p']) Store.empty).2.2
      (blockKey ['p'] 0)
      = some [5, 104, 101, 108, 108, 111, 5, 119, 111, 114, 108, 100] :=
  ⟨rfl, rfl, rfl, rfl, by decide⟩

/-- Claim C2, code-bug evidence: the oversized singleton is written as
a solo block exactly as claimed — `append` of the 10-byte record
`b"0123456789"` to a fresh writer with `block_size = 8` returns offset
`(0, 0)` and the final flush publishes the solo framed 11-byte payload
under block 0, exceeding the nominal cap — but the claimed round trip
fails: `fetch (0, 0)` errors, because `fetch_block` decompresses into a
buffer of exactly `block_size` bytes and the solo block does not fit. -/
theorem oversized_solo_block_fetch_fails :
    (S3BlockWriter.append Zstd.triv (S3BlockWriter.new 8 ['p'])
      Store.empty [48, 49, 50, 51, 52, 53, 54, 55, 56, 57]).1 = ⟨0, 0⟩ ∧
    (S3BlockWriter.flush Zstd.triv
      (S3BlockWriter.append Zstd.triv (S3BlockWriter.new 8 ['p'])
        Store.empty [48, 49, 50, 51, 52, 53, 54, 55, 56, 57]).2.1
      (S3BlockWriter.append Zstd.triv (S3BlockWriter.new 8 ['p'])
        Store.empty [48, 49, 50, 51, 52, 53, 54, 55, 56, 57]).2.2).2
      (blockKey ['p'] 0)
      = some [10, 48, 49, 50, 51, 52, 53, 54, 55, 56, 57] ∧
    S3BlockReader.fetch Zstd.triv 8 ['p']
      (S3BlockWriter.flush Zstd.triv
        (S3BlockWriter.append Zstd.triv (S3BlockWriter.new 8 ['p'])
          Store.empty [48, 49, 50, 51, 52, 53, 54, 55, 56, 57]).2.1
        (S3BlockWriter.append Zstd.triv (S3BlockWriter.new 8 ['p'])
          Store.empty [48, 49, 50, 51, 52, 53, 54, 55, 56, 57]).2.2).2
      ⟨0, 0⟩ = none := by
  refine ⟨by decide, by decide, by decide⟩

/-- Claim C3, code-bug evidence: `flush` clears `buf` before the `put`,
so on a `put` error the buffered bytes are lost, not retained. For a
writer holding the framed record `b"h"` (`buf = [1, 104]`), a failed
flush leaves `buf` empty with `cur` unchanged, and the retry flush is
an empty-buffer no-op: nothing is ever published under block 0,
contradicting the claimed idempotent re-publish. -/
theorem flush_put_error_loses_buffer :
    (S3BlockWriter.flushWith Zstd.triv false
      ⟨[1, 104], 8, ['p'], ⟨0, 2⟩⟩ Store.empty).2.1
      = ⟨[], 8, ['p'], ⟨0, 2⟩⟩ ∧
    (S3BlockWriter.flushWith Zstd.triv true
      (S3BlockWriter.flushWith Zstd.triv false
        ⟨[1, 104], 8, ['p'], ⟨0, 2⟩⟩ Store.empty).2.1
      (S3BlockWriter.flushWith Zstd.triv false
        ⟨[1, 104], 8, ['p'], ⟨0, 2⟩⟩ Store.empty).2.2).1 = true ∧
    (S3BlockWriter.flushWith Zstd.triv true
      (S3BlockWriter.flushWith Zstd.triv false
        ⟨[1, 104], 8, ['p'], ⟨0, 2⟩⟩ Store.empty).2.1
      (S3BlockWriter.flushWith Zstd.triv false
        ⟨[1, 104], 8, ['p'], ⟨0, 2⟩⟩ Store.empty).2.2).2.2
      (blockKey ['p'] 0) = none := by
  refine ⟨rfl, by decide, by decide⟩

/-- Claim C7: negative-result caching. Over a spy store that always
answers `Ok(None)`, a capacity-1 cache given `get "a"; get "a"; get "b"`
forwards exactly the keys `["a", "b"]` to the inner store — the second
`get "a"` is answered from the cached `None`. -/
theorem caching_negative_result_trace :
    (Caching.get Spystore
      (Caching.get Spystore
        (Caching.get Spystore (Caching.new [] 1) ['a']).1 ['a']).1
      ['b']).1.inner = [['a'], ['b']] ∧
    (Caching.get Spystore
      (Caching.get Spystore (Caching.new [] 1) ['a']).1 ['a']).2
      = Except.ok none := by
  refine ⟨by decide, rfl⟩

/-- Claim C8: cache-hit frame property. Whenever the cell cached under
`k` is populated, `get k` returns the cached result unchanged and the
inner blobstore's state is untouched (its `get` is never invoked). -/
theorem caching_hit_preserves_inner {σ : Type} (B : Blobstore σ)
    (c : Caching σ) (k : Key) (v : Option (List Nat))
    (h : c.cache.entries.lookup k = some (some v)) :
    (Caching.get B c k).2 = Except.ok v ∧
    (Caching.get B c k).1.inner = c.inner := by
  rw [Caching.get_hit B c k v h]
  exact ⟨rfl, rfl⟩

/-- Claim C8 witness: a concrete hit on a spy store leaves the spy's
fetch log empty. -/
theorem caching_hit_preserves_inner_witness :
    (Caching.get Spystore ⟨[], ⟨1, [(['a'], some (some [7]))]⟩⟩ ['a']).2
      = Except.ok (some [7]) ∧
    (Caching.get Spystore ⟨[], ⟨1, [(['a'], some (some [7]))]⟩⟩ ['a']).1.inner
      = [] :=
  caching_hit_preserves_inner Spystore
    ⟨[], ⟨1, [(['a'], some (some [7]))]⟩⟩ ['a'] (some [7]) (by decide)

/-- Claim C9: prefix composition. For every inner store, both `get` and
`put` of key `k` through two nested `Prefixed` layers with inner prefix
`p1` and outer prefix `p2` make the inner store observe exactly the
single key `p1/p2/k`. -/
theorem prefixed_compose_observes {σ : Type} (B : Blobstore σ)
    (p1 p2 k : Key) (s : σ) (v : List Nat) :
    ((Prefixed (Prefixed (traced B) p1) p2).get (s, []) k).1.2
      = [p1 ++ ('/' :: (p2 ++ ('/' :: k)))] ∧
    ((Prefixed (Prefixed (traced B) p1) p2).put (s, []) k v).1.2
      = [p1 ++ ('/' :: (p2 ++ ('/' :: k)))] :=
  ⟨rfl, rfl⟩

/-- Claim C10: `put` never touches the cache. For every key and value,
`Caching.put` delegates to the inner store and leaves the cache —
entries and recency order — exactly as it was; in particular a `get k`
right after `put k v` still returns the stale cached bytes `w` when `k`
was cached with `w`. -/
theorem caching_put_bypasses_cache {σ : Type} (B : Blobstore σ)
    (c : Caching σ) (k : Key) (v : List Nat) :
    (Caching.put B c k v).1.cache = c.cache ∧
    ∀ w, c.cache.entries.lookup k = some (some (some w)) →
      (Caching.get B (Caching.put B c k v).1 k).2
        = Except.ok (some w) := by
  refine ⟨rfl, fun w h => ?_⟩
  rw [Caching.get_hit B (Caching.put B c k v).1 k (some w) h]

/-- Claim C10 witness: after `put "a" [9]` over a cache holding `[1]`
for `"a"`, the cache is unchanged and `get "a"` still returns `[1]`. -/
theorem caching_put_bypasses_cache_witness :
    (Caching.put Spystore ⟨[], ⟨2, [(['a'], some (some [1]))]⟩⟩
      ['a'] [9]).1.cache = ⟨2, [(['a'], some (some [1]))]⟩ ∧
    (Caching.get Spystore
      (Caching.put Spystore ⟨[], ⟨2, [(['a'], some (some [1]))]⟩⟩
        ['a'] [9]).1 ['a']).2 = Except.ok (some [1]) :=
  ⟨(caching_put_bypasses_cache Spystore
      ⟨[], ⟨2, [(['a'], some (some [1]))]⟩⟩ ['a'] [9]).1,
   (caching_put_bypasses_cache Spystore
      ⟨[], ⟨2, [(['a'], some (some [1]))]⟩⟩ ['a'] [9]).2 [1] (by decide)⟩

end S3kv
